import Mathlib

/-!
Verification of the panning / mixing subsystem (`src/pan.rs`, helpers from
`src/math.rs`) of the fundsp audio library, against its specification.

The Rust code is generic over a scalar trait `T: Real`; the embedding mirrors
this by working over an arbitrary type `T` equipped with the arithmetic the
code uses (`Add`, `Mul`, `Neg`, `One`, `Min`, `Max` type classes) plus a
`TrigOps` record holding the transcendental operations (`cos`, `sin`) and the
constant `T::from_f64(PI * 0.25)`.  Instantiating `TrigOps` at `ℝ` with the
genuine trigonometric functions recovers the floating-point code's intended
real semantics.

Buffers handed to `process` are embedded as `List T`; in-place writes become
`List.set` and reads become `List.getD` (Rust slice indexing panics out of
bounds; all claims about `process` assume the caller passed buffers of
sufficient length, which appears as explicit hypotheses).
-/

namespace Fundsp

/-- Trait-level transcendental operations used by `pan.rs`:
`cos`, `sin` and the constant `T::from_f64(PI * 0.25)`. -/
structure TrigOps (T : Type) where
  cos : T → T
  sin : T → T
  quarter_pi : T

/-- Embedding of `math.rs` `clamp11`: `x.max(T::new(-1)).min(T::one())`. -/
def clamp11 {T : Type} [Max T] [Min T] [Neg T] [One T] (x : T) : T :=
  min (max x (-(1 : T))) 1

/-- Embedding of `pan.rs` `pan_weights`: equal power pan weights
`(cos(angle), sin(angle))` with `angle = (clamp11(value) + 1) * (PI * 0.25)`. -/
def pan_weights {T : Type} [Max T] [Min T] [Neg T] [One T] [Add T] [Mul T]
    (ops : TrigOps T) (value : T) : T × T :=
  let angle := (clamp11 value + 1) * ops.quarter_pi
  (ops.cos angle, ops.sin angle)

/-- Embedding of the `Panner` struct: the stored stereo weights.
The phantom channel-count parameter `N` of the Rust struct is passed to the
operations below as an ordinary natural number `n`. -/
structure Panner (T : Type) where
  left_weight : T
  right_weight : T

/-- Embedding of `Panner::new`. -/
def Panner.new {T : Type} [Max T] [Min T] [Neg T] [One T] [Add T] [Mul T]
    (ops : TrigOps T) (value : T) : Panner T :=
  let lr := pan_weights ops value
  { left_weight := lr.1, right_weight := lr.2 }

/-- Embedding of `Panner::set_pan`. -/
def Panner.set_pan {T : Type} [Max T] [Min T] [Neg T] [One T] [Add T] [Mul T]
    (ops : TrigOps T) (_s : Panner T) (value : T) : Panner T :=
  let lr := pan_weights ops value
  { left_weight := lr.1, right_weight := lr.2 }

/-- Embedding of `Panner::tick` for a panner with `n` inputs.  The input frame
is a list holding one sample per channel (entries beyond index `n - 1` are
never read).  Returns the updated panner and the `(left, right)` output frame. -/
def Panner.tick {T : Type} [Max T] [Min T] [Neg T] [One T] [Add T] [Mul T]
    [Inhabited T] (ops : TrigOps T) (n : ℕ) (s : Panner T) (input : List T) :
    Panner T × T × T :=
  let s1 := if 1 < n then s.set_pan ops (input.getD 1 default) else s
  (s1, s1.left_weight * input.getD 0 default, s1.right_weight * input.getD 0 default)

/-- Loop body of `Panner::process` at block index `i`: when a control channel
is present, re-derive the weights from `input[1][i]`, then scale the (already
copied) samples `output[0][i]` and `output[1][i]` in place. -/
def Panner.process_body {T : Type} [Max T] [Min T] [Neg T] [One T] [Add T]
    [Mul T] [Inhabited T] (ops : TrigOps T) (n : ℕ) (in1 : List T)
    (acc : Panner T × List T × List T) (i : ℕ) : Panner T × List T × List T :=
  let s1 := if 1 < n then
      let lr := pan_weights ops (in1.getD i default)
      { left_weight := lr.1, right_weight := lr.2 }
    else acc.1
  (s1, acc.2.1.set i (acc.2.1.getD i default * s1.left_weight),
       acc.2.2.set i (acc.2.2.getD i default * s1.right_weight))

/-- Embedding of `Panner::process`: first `output[k][..size]` is overwritten
with `input[0][..size]` (the `clone_from_slice` calls), then the loop
`for i in 0..size` scales each sample in place, re-deriving the weights per
index when a control channel is present.  Returns the final panner state and
the two output buffers. -/
def Panner.process {T : Type} [Max T] [Min T] [Neg T] [One T] [Add T] [Mul T]
    [Inhabited T] (ops : TrigOps T) (n : ℕ) (s : Panner T) (size : ℕ)
    (in0 in1 out0 out1 : List T) : Panner T × List T × List T :=
  (List.range size).foldl (Panner.process_body ops n in1)
    (s, in0.take size ++ out0.drop size, in0.take size ++ out1.drop size)

/-- Specification helper: the panner state after `i` sequential samples whose
control values are drawn from `in1` (the state is unchanged when `n ≤ 1`). -/
def Panner.stateAt {T : Type} [Max T] [Min T] [Neg T] [One T] [Add T] [Mul T]
    [Inhabited T] (ops : TrigOps T) (n : ℕ) (s : Panner T) (in1 : List T) :
    ℕ → Panner T
  | 0 => s
  | i + 1 =>
    if 1 < n then (Panner.stateAt ops n s in1 i).set_pan ops (in1.getD i default)
    else Panner.stateAt ops n s in1 i

/-- Specification helper: run `Panner::tick` sequentially over a list of input
frames, collecting the stereo outputs and threading the state. -/
def Panner.tickRun {T : Type} [Max T] [Min T] [Neg T] [One T] [Add T] [Mul T]
    [Inhabited T] (ops : TrigOps T) (n : ℕ) (s : Panner T) :
    List (List T) → Panner T × List (T × T)
  | [] => (s, [])
  | frame :: rest =>
    let r := Panner.tick ops n s frame
    let r2 := Panner.tickRun ops n r.1 rest
    (r2.1, r.2 :: r2.2)

/-- Specification helper: the `size` per-sample input frames corresponding to
the input block with channels `in0` and `in1`. -/
def Panner.blockFrames {T : Type} [Inhabited T] (size : ℕ) (in0 in1 : List T) :
    List (List T) :=
  (List.range size).map fun i => [in0.getD i default, in1.getD i default]

/-- Embedding of `Mixer::tick` for a mixer whose coefficient matrix has one
row per output channel: each output accumulates `value += x * y` over the
zipped input frame and matrix row, starting from zero. -/
def Mixer.tick {T : Type} [Add T] [Mul T] [Zero T]
    (matrix : List (List T)) (input : List T) : List T :=
  matrix.map fun row =>
    (input.zip row).foldl (fun value xy => value + xy.1 * xy.2) 0

/-- Modelled from the spec: the signal descriptor (`Signal` of `signal.rs`,
which is not among the given source files).  Per §3 of the spec a descriptor
carries, for one channel at one analysis frequency, either "no definite
response" or a complex gain. -/
inductive Signal where
  | unknown : Signal
  | response (gain : ℂ) : Signal

/-- Modelled from the spec: complex scaling of a descriptor by a constant real
factor (`Signal::scale`), used for constant-coefficient scaling and matrix
mixing; an unknown response stays unknown. -/
def Signal.scale (s : Signal) (factor : ℝ) : Signal :=
  match s with
  | Signal.unknown => Signal.unknown
  | Signal.response gain => Signal.response (gain * (factor : ℂ))

/-- Modelled from the spec: `Signal::combine_linear`, merging two descriptors
for the same channel with the supplied response-combining function; the merge
is defined only when both responses are, otherwise there is no definite
response. -/
def Signal.combine_linear (s t : Signal) (respond : ℂ → ℂ → ℂ) : Signal :=
  match s, t with
  | Signal.response a, Signal.response b => Signal.response (respond a b)
  | _, _ => Signal.unknown

/-- Embedding of `Panner::route` (with `T = f64`, so the weight-to-`f64`
conversion is the identity): both outputs scale the descriptor of the mono
input channel by the currently stored weight, ignoring the analysis frequency
and any descriptor of the control channel. -/
def Panner.route (s : Panner ℝ) (input : List Signal) (_frequency : ℝ) :
    List Signal :=
  [(input.getD 0 Signal.unknown).scale s.left_weight,
   (input.getD 0 Signal.unknown).scale s.right_weight]

/-- Embedding of `Mixer::route` for a mixer with `m` input channels (with
`T = f64`, so `convert` on the coefficients is the identity): each output `i`
starts from `input[0]` scaled by `matrix[i][0]` and folds in
`input[j]` scaled by `matrix[i][j]` for `j in 1..m` through `combine_linear`
with complex addition. -/
def Mixer.route (m : ℕ) (matrix : List (List ℝ)) (input : List Signal) :
    List Signal :=
  matrix.map fun row =>
    (List.range' 1 (m - 1)).foldl
      (fun acc j =>
        acc.combine_linear ((input.getD j Signal.unknown).scale (row.getD j 0))
          (fun x y => x + y))
      ((input.getD 0 Signal.unknown).scale (row.getD 0 0))

/-- Real-valued instantiation of the trait operations: the intended semantics
of the floating-point code. -/
noncomputable def realTrig : TrigOps ℝ :=
  { cos := Real.cos, sin := Real.sin, quarter_pi := Real.pi * 0.25 }

/-- Computable integer-valued stand-in for the trait operations, used to
evaluate the generic theorems on concrete inputs (the structural theorems
about `tick`/`process` hold for any instantiation of the operations). -/
def testTrig : TrigOps ℤ :=
  { cos := fun x => x + 2, sin := fun x => x * 3, quarter_pi := 5 }

end Fundsp

namespace Fundsp

/-! Helper lemmas about list reads and writes. -/

theorem getD_set_self {α : Type} (l : List α) (i : ℕ) (a d : α) (h : i < l.length) :
    (l.set i a).getD i d = a := by
  rw [List.getD_eq_getElem _ _ (by simpa using h)]
  exact List.getElem_set_self _

theorem getD_set_ne {α : Type} (l : List α) {i j : ℕ} (a d : α) (h : i ≠ j) :
    (l.set i a).getD j d = l.getD j d := by
  rw [List.getD_eq_getD_get?, List.getD_eq_getD_get?, List.get?_eq_getElem?,
    List.get?_eq_getElem?, List.getElem?_set_ne h]

theorem getD_map_range {α : Type} (f : ℕ → α) (n j : ℕ) (d : α) :
    ((List.range n).map f).getD j d = if j < n then f j else d := by
  rw [List.getD_eq_getD_get?, List.get?_eq_getElem?, List.getElem?_map]
  by_cases h : j < n
  · rw [List.getElem?_range h]
    simp [h]
  · rw [List.getElem?_eq_none (by simpa using Nat.le_of_not_lt h)]
    simp [h]

theorem getD_take_agree {α : Type} {l l2 : List α} {size : ℕ}
    (h : l.take size = l2.take size) {i : ℕ} (hi : i < size) (d : α) :
    l.getD i d = l2.getD i d := by
  have h1 : (l.take size)[i]? = (l2.take size)[i]? := by rw [h]
  rw [List.getElem?_take, List.getElem?_take, if_pos hi, if_pos hi] at h1
  rw [List.getD_eq_getD_get?, List.get?_eq_getElem?, h1, ← List.get?_eq_getElem?,
    ← List.getD_eq_getD_get?]

/-! Values of `clamp11` at distinguished points. -/

theorem clamp11_zero : clamp11 (0 : ℝ) = 0 := by
  simp [clamp11]

theorem clamp11_one : clamp11 (1 : ℝ) = 1 := by
  simp [clamp11]

theorem clamp11_neg_one : clamp11 (-1 : ℝ) = -1 := by
  simp [clamp11]

/-- C2: for every pan value `p`, `Panner::new(p)` (and `set_pan(p)`, which
computes the same state) stores `left_weight = cos θ` and
`right_weight = sin θ` with `θ = (clamp(p,-1,1) + 1) · π/4`; consequently at
`p = 0` both weights equal `cos (π/4)`, at `p = 1` the weights are `(0, 1)`,
at `p = -1` they are `(1, 0)`, and `left_weight² + right_weight² = 1` for
every pan value (in particular throughout `[-1, 1]`). -/
theorem panner_equal_power_weights :
    (∀ p : ℝ, Panner.new realTrig p =
        { left_weight := Real.cos ((clamp11 p + 1) * (Real.pi / 4)),
          right_weight := Real.sin ((clamp11 p + 1) * (Real.pi / 4)) }) ∧
    (∀ (s : Panner ℝ) (p : ℝ), Panner.set_pan realTrig s p = Panner.new realTrig p) ∧
    (Panner.new realTrig 0).left_weight = Real.cos (Real.pi / 4) ∧
    (Panner.new realTrig 0).right_weight = Real.cos (Real.pi / 4) ∧
    (Panner.new realTrig 1).left_weight = 0 ∧
    (Panner.new realTrig 1).right_weight = 1 ∧
    (Panner.new realTrig (-1)).left_weight = 1 ∧
    (Panner.new realTrig (-1)).right_weight = 0 ∧
    ∀ p : ℝ, (Panner.new realTrig p).left_weight ^ 2 +
      (Panner.new realTrig p).right_weight ^ 2 = 1 := by
  have hq : (Real.pi * 0.25 : ℝ) = Real.pi / 4 := by ring
  refine ⟨?_, ?_, ?_, ?_, ?_, ?_, ?_, ?_, ?_⟩
  · intro p
    simp only [Panner.new, pan_weights, realTrig, hq]
  · intro s p
    rfl
  · have h : ((clamp11 (0 : ℝ)) + 1) * (Real.pi * 0.25) = Real.pi / 4 := by
      rw [clamp11_zero]; ring
    simp only [Panner.new, pan_weights, realTrig]
    rw [h]
  · have h : ((clamp11 (0 : ℝ)) + 1) * (Real.pi * 0.25) = Real.pi / 4 := by
      rw [clamp11_zero]; ring
    simp only [Panner.new, pan_weights, realTrig]
    rw [h, Real.sin_pi_div_four, Real.cos_pi_div_four]
  · have h : ((clamp11 (1 : ℝ)) + 1) * (Real.pi * 0.25) = Real.pi / 2 := by
      rw [clamp11_one]; ring
    simp only [Panner.new, pan_weights, realTrig]
    rw [h, Real.cos_pi_div_two]
  · have h : ((clamp11 (1 : ℝ)) + 1) * (Real.pi * 0.25) = Real.pi / 2 := by
      rw [clamp11_one]; ring
    simp only [Panner.new, pan_weights, realTrig]
    rw [h, Real.sin_pi_div_two]
  · have h : ((clamp11 (-1 : ℝ)) + 1) * (Real.pi * 0.25) = 0 := by
      rw [clamp11_neg_one]; ring
    simp only [Panner.new, pan_weights, realTrig]
    rw [h, Real.cos_zero]
  · have h : ((clamp11 (-1 : ℝ)) + 1) * (Real.pi * 0.25) = 0 := by
      rw [clamp11_neg_one]; ring
    simp only [Panner.new, pan_weights, realTrig]
    rw [h, Real.sin_zero]
  · intro p
    simp only [Panner.new, pan_weights, realTrig]
    exact Real.cos_sq_add_sin_sq _

/-- C5: `Panner::route` scales the descriptor of the mono input channel by the
currently stored left and right weights, and its result does not depend on
the analysis frequency or on any descriptor beyond the mono input (in
particular not on the control channel's descriptor): the stored pan state is
treated as constant for the query. -/
theorem panner_route_scales_input :
    ∀ (s : Panner ℝ) (d0 : Signal) (rest rest2 : List Signal) (f f2 : ℝ),
      Panner.route s (d0 :: rest) f =
        [d0.scale s.left_weight, d0.scale s.right_weight] ∧
      Panner.route s (d0 :: rest) f = Panner.route s (d0 :: rest2) f2 := by
  intro s d0 rest rest2 f f2
  exact ⟨rfl, rfl⟩

end Fundsp

namespace Fundsp

/-! Characterization of the `process` loop: the state thread and the
elementwise content of the two output buffers. -/

section ProcessLoop

variable {T : Type} [Max T] [Min T] [Neg T] [One T] [Add T] [Mul T] [Inhabited T]

theorem process_loop_fst (ops : TrigOps T) (n : ℕ) (in1 : List T) :
    ∀ (k : ℕ) (s : Panner T) (b0 b1 : List T),
      ((List.range k).foldl (Panner.process_body ops n in1) (s, b0, b1)).1 =
        Panner.stateAt ops n s in1 k := by
  intro k
  induction k with
  | zero => intro s b0 b1; rfl
  | succ k ih =>
    intro s b0 b1
    rw [List.range_succ, List.foldl_append]
    by_cases h : 1 < n <;>
      simp [Panner.process_body, Panner.stateAt, Panner.set_pan, h, ih]

theorem process_loop_length (ops : TrigOps T) (n : ℕ) (in1 : List T) :
    ∀ (k : ℕ) (s : Panner T) (b0 b1 : List T),
      ((List.range k).foldl (Panner.process_body ops n in1) (s, b0, b1)).2.1.length =
          b0.length ∧
      ((List.range k).foldl (Panner.process_body ops n in1) (s, b0, b1)).2.2.length =
          b1.length := by
  intro k
  induction k with
  | zero => intro s b0 b1; exact ⟨rfl, rfl⟩
  | succ k ih =>
    intro s b0 b1
    rw [List.range_succ, List.foldl_append]
    simp [Panner.process_body, (ih s b0 b1).1, (ih s b0 b1).2]

theorem process_loop_getD (ops : TrigOps T) (n : ℕ) (in1 : List T) :
    ∀ (k : ℕ) (s : Panner T) (b0 b1 : List T) (j : ℕ),
      ((List.range k).foldl (Panner.process_body ops n in1) (s, b0, b1)).2.1.getD j
          default =
        (if j < k ∧ j < b0.length then
          b0.getD j default * (Panner.stateAt ops n s in1 (j + 1)).left_weight
         else b0.getD j default) ∧
      ((List.range k).foldl (Panner.process_body ops n in1) (s, b0, b1)).2.2.getD j
          default =
        (if j < k ∧ j < b1.length then
          b1.getD j default * (Panner.stateAt ops n s in1 (j + 1)).right_weight
         else b1.getD j default) := by
  intro k
  induction k with
  | zero => intro s b0 b1 j; simp
  | succ k ih =>
    intro s b0 b1 j
    rw [List.range_succ, List.foldl_append]
    have hL0 : ((List.range k).foldl (Panner.process_body ops n in1) (s, b0, b1)).2.1.length
        = b0.length := (process_loop_length ops n in1 k s b0 b1).1
    have hL1 : ((List.range k).foldl (Panner.process_body ops n in1) (s, b0, b1)).2.2.length
        = b1.length := (process_loop_length ops n in1 k s b0 b1).2
    have hbody : Panner.process_body ops n in1
        ((List.range k).foldl (Panner.process_body ops n in1) (s, b0, b1)) k =
        (Panner.stateAt ops n s in1 (k + 1),
         ((List.range k).foldl (Panner.process_body ops n in1) (s, b0, b1)).2.1.set k
           (((List.range k).foldl (Panner.process_body ops n in1) (s, b0, b1)).2.1.getD k
               default *
             (Panner.stateAt ops n s in1 (k + 1)).left_weight),
         ((List.range k).foldl (Panner.process_body ops n in1) (s, b0, b1)).2.2.set k
           (((List.range k).foldl (Panner.process_body ops n in1) (s, b0, b1)).2.2.getD k
               default *
             (Panner.stateAt ops n s in1 (k + 1)).right_weight)) := by
      have hfst := process_loop_fst ops n in1 k s b0 b1
      by_cases h : 1 < n <;>
        simp [Panner.process_body, Panner.stateAt, Panner.set_pan, h, hfst]
    simp only [List.foldl_cons, List.foldl_nil, hbody]
    rcases Nat.lt_trichotomy j k with hj | hj | hj
    · have hne : k ≠ j := (Nat.ne_of_lt hj).symm
      rw [getD_set_ne _ _ _ hne, getD_set_ne _ _ _ hne]
      rw [(ih s b0 b1 j).1, (ih s b0 b1 j).2]
      constructor
      · by_cases hb : j < b0.length <;> simp [hj, Nat.lt_succ_of_lt hj, hb]
      · by_cases hb : j < b1.length <;> simp [hj, Nat.lt_succ_of_lt hj, hb]
    · subst hj
      constructor
      · by_cases hb : j < b0.length
        · rw [getD_set_self _ _ _ _ (by rw [hL0]; exact hb)]
          rw [(ih s b0 b1 j).1]
          simp [hb, Nat.lt_irrefl, Nat.lt_succ_self]
        · rw [List.set_eq_of_length_le (by rw [hL0]; exact Nat.le_of_not_lt hb)]
          rw [(ih s b0 b1 j).1]
          simp [hb]
      · by_cases hb : j < b1.length
        · rw [getD_set_self _ _ _ _ (by rw [hL1]; exact hb)]
          rw [(ih s b0 b1 j).2]
          simp [hb, Nat.lt_irrefl, Nat.lt_succ_self]
        · rw [List.set_eq_of_length_le (by rw [hL1]; exact Nat.le_of_not_lt hb)]
          rw [(ih s b0 b1 j).2]
          simp [hb]
    · have hne : k ≠ j := Nat.ne_of_lt hj
      rw [getD_set_ne _ _ _ hne, getD_set_ne _ _ _ hne]
      rw [(ih s b0 b1 j).1, (ih s b0 b1 j).2]
      have h1 : ¬ j < k := Nat.not_lt_of_lt hj  -- hj : k < j
      have h2 : ¬ j < k + 1 := by omega
      simp [h1, h2]

end ProcessLoop
theorem clone_getD {T : Type} [Inhabited T] (size : ℕ) (in0 out0 : List T) (hin : size ≤ in0.length) (j : ℕ) :
    (in0.take size ++ out0.drop size).getD j default =
      if j < size then in0.getD j default else out0.getD j default := by
  have htake : (in0.take size).length = size := by
    rw [List.length_take]; omega
  by_cases hj : j < size
  · have h1 : j < (in0.take size ++ out0.drop size).length := by
      rw [List.length_append, htake]; omega
    rw [List.getD_eq_getElem _ _ h1, List.getElem_append_left (by rw [htake]; exact hj),
      List.getElem_take, if_pos hj, List.getD_eq_getElem _ _ (by omega)]
  · rw [if_neg hj]
    by_cases hj2 : j < size + (out0.length - size)
    · have h1 : j < (in0.take size ++ out0.drop size).length := by
        rw [List.length_append, htake, List.length_drop]; omega
      rw [List.getD_eq_getElem _ _ h1, List.getElem_append_right (by omega)]
      rw [List.getElem_drop]
      have hidx : size + (j - (in0.take size).length) = j := by rw [htake]; omega
      rw [List.getD_eq_getElem _ _ (by rw [← hidx] at hj2 ⊢; omega)]
      congr 1
    · rw [List.getD_eq_default _ _ (by rw [List.length_append, htake, List.length_drop]; omega),
        List.getD_eq_default _ _ (by omega)]
section ProcessChar2

variable {T : Type} [Max T] [Min T] [Neg T] [One T] [Add T] [Mul T] [Inhabited T]

theorem process_fst (ops : TrigOps T) (n : ℕ) (s : Panner T) (size : ℕ)
    (in0 in1 out0 out1 : List T) :
    (Panner.process ops n s size in0 in1 out0 out1).1 =
      Panner.stateAt ops n s in1 size :=
  process_loop_fst ops n in1 size s _ _

theorem process_length (ops : TrigOps T) (n : ℕ) (s : Panner T) (size : ℕ)
    (in0 in1 out0 out1 : List T) (hin : size ≤ in0.length)
    (hout0 : size ≤ out0.length) (hout1 : size ≤ out1.length) :
    (Panner.process ops n s size in0 in1 out0 out1).2.1.length = out0.length ∧
    (Panner.process ops n s size in0 in1 out0 out1).2.2.length = out1.length := by
  have h := process_loop_length ops n in1 size s
    (in0.take size ++ out0.drop size) (in0.take size ++ out1.drop size)
  constructor
  · rw [Panner.process, h.1, List.length_append, List.length_take, List.length_drop]
    omega
  · rw [Panner.process, h.2, List.length_append, List.length_take, List.length_drop]
    omega

theorem process_getD (ops : TrigOps T) (n : ℕ) (s : Panner T) (size : ℕ)
    (in0 in1 out0 out1 : List T) (hin : size ≤ in0.length)
    (hout0 : size ≤ out0.length) (hout1 : size ≤ out1.length) (j : ℕ) :
    (Panner.process ops n s size in0 in1 out0 out1).2.1.getD j default =
      (if j < size then
        in0.getD j default * (Panner.stateAt ops n s in1 (j + 1)).left_weight
       else out0.getD j default) ∧
    (Panner.process ops n s size in0 in1 out0 out1).2.2.getD j default =
      (if j < size then
        in0.getD j default * (Panner.stateAt ops n s in1 (j + 1)).right_weight
       else out1.getD j default) := by
  have h := process_loop_getD ops n in1 size s
    (in0.take size ++ out0.drop size) (in0.take size ++ out1.drop size) j
  have hlen0 : (in0.take size ++ out0.drop size).length = out0.length := by
    rw [List.length_append, List.length_take, List.length_drop]; omega
  have hlen1 : (in0.take size ++ out1.drop size).length = out1.length := by
    rw [List.length_append, List.length_take, List.length_drop]; omega
  constructor
  · rw [Panner.process, h.1, clone_getD size in0 out0 hin j]
    by_cases hj : j < size
    · rw [if_pos hj, if_pos ⟨hj, by omega⟩, if_pos hj]
    · rw [if_neg hj, if_neg (by omega), if_neg hj]
  · rw [Panner.process, h.2, clone_getD size in0 out1 hin j]
    by_cases hj : j < size
    · rw [if_pos hj, if_pos ⟨hj, by omega⟩, if_pos hj]
    · rw [if_neg hj, if_neg (by omega), if_neg hj]

theorem tickRun_append (ops : TrigOps T) (n : ℕ) :
    ∀ (l1 l2 : List (List T)) (s : Panner T),
      Panner.tickRun ops n s (l1 ++ l2) =
        ((Panner.tickRun ops n (Panner.tickRun ops n s l1).1 l2).1,
         (Panner.tickRun ops n s l1).2 ++
           (Panner.tickRun ops n (Panner.tickRun ops n s l1).1 l2).2) := by
  intro l1
  induction l1 with
  | nil => intro l2 s; simp [Panner.tickRun]
  | cons frame rest ih =>
    intro l2 s
    simp [Panner.tickRun, ih]

theorem tickRun_blockFrames (ops : TrigOps T) (n : ℕ) :
    ∀ (size : ℕ) (s : Panner T) (in0 in1 : List T),
      Panner.tickRun ops n s (Panner.blockFrames size in0 in1) =
        (Panner.stateAt ops n s in1 size,
         (List.range size).map fun i =>
           ((Panner.stateAt ops n s in1 (i + 1)).left_weight * in0.getD i default,
            (Panner.stateAt ops n s in1 (i + 1)).right_weight * in0.getD i default)) := by
  intro size
  induction size with
  | zero => intro s in0 in1; simp [Panner.blockFrames, Panner.tickRun, Panner.stateAt]
  | succ size ih =>
    intro s in0 in1
    have hbf : Panner.blockFrames (size + 1) in0 in1 =
        Panner.blockFrames size in0 in1 ++
          [[in0.getD size default, in1.getD size default]] := by
      simp [Panner.blockFrames, List.range_succ]
    rw [hbf, tickRun_append, ih]
    have htick : Panner.tickRun ops n (Panner.stateAt ops n s in1 size)
        [[in0.getD size default, in1.getD size default]] =
        (Panner.stateAt ops n s in1 (size + 1),
         [((Panner.stateAt ops n s in1 (size + 1)).left_weight * in0.getD size default,
           (Panner.stateAt ops n s in1 (size + 1)).right_weight * in0.getD size default)]) := by
      by_cases h : 1 < n <;>
        simp [Panner.tickRun, Panner.tick, Panner.stateAt, Panner.set_pan, h]
    rw [htick, List.range_succ, List.map_append]
    simp

end ProcessChar2

end Fundsp

namespace Fundsp

/-- C1: for every `Panner` (any input count, in particular 1 or 2 inputs),
every starting weight state, and every input block of length `size` (with
output buffers at least that long), a single `process(size, input, output)`
call writes to indices `0..size` of the two output channels exactly the
left/right samples that `size` sequential `tick` calls on the corresponding
per-sample input frames produce, and leaves the panner in the same final
weight state.  (The scalar multiplication of the carrier is assumed
commutative, as it is for the floating-point and real instantiations.) -/
theorem panner_process_eq_tick {T : Type} [Max T] [Min T] [Neg T] [One T]
    [Add T] [Mul T] [Inhabited T] (ops : TrigOps T) (n : ℕ) (s : Panner T)
    (size : ℕ) (in0 in1 out0 out1 : List T)
    (hmul : ∀ a b : T, a * b = b * a) (hin : size ≤ in0.length)
    (hout0 : size ≤ out0.length) (hout1 : size ≤ out1.length) :
    (Panner.process ops n s size in0 in1 out0 out1).1 =
        (Panner.tickRun ops n s (Panner.blockFrames size in0 in1)).1 ∧
    (Panner.process ops n s size in0 in1 out0 out1).2.1.take size =
        (Panner.tickRun ops n s (Panner.blockFrames size in0 in1)).2.map Prod.fst ∧
    (Panner.process ops n s size in0 in1 out0 out1).2.2.take size =
        (Panner.tickRun ops n s (Panner.blockFrames size in0 in1)).2.map Prod.snd := by
  rw [tickRun_blockFrames]
  have hlen := process_length ops n s size in0 in1 out0 out1 hin hout0 hout1
  refine ⟨?_, ?_, ?_⟩
  · rw [process_fst]
  · apply List.ext_getElem
    · simp [hlen.1, List.length_take]
      omega
    · intro j h1 h2
      have hj : j < size := by
        simp [List.length_take, hlen.1] at h1
        omega
      have hjP : j < (Panner.process ops n s size in0 in1 out0 out1).2.1.length := by
        rw [hlen.1]; omega
      rw [List.getElem_take, ← List.getD_eq_getElem _ default hjP,
        (process_getD ops n s size in0 in1 out0 out1 hin hout0 hout1 j).1, if_pos hj]
      simp [List.getElem_map, List.getElem_range, hmul]
  · apply List.ext_getElem
    · simp [hlen.2, List.length_take]
      omega
    · intro j h1 h2
      have hj : j < size := by
        simp [List.length_take, hlen.2] at h1
        omega
      have hjP : j < (Panner.process ops n s size in0 in1 out0 out1).2.2.length := by
        rw [hlen.2]; omega
      rw [List.getElem_take, ← List.getD_eq_getElem _ default hjP,
        (process_getD ops n s size in0 in1 out0 out1 hin hout0 hout1 j).2, if_pos hj]
      simp [List.getElem_map, List.getElem_range, hmul]

/-- Witness for C1 at a concrete panner, block and buffers over `ℤ`. -/
theorem panner_process_eq_tick_witness :
    2 ≤ ([1, 2] : List ℤ).length ∧
    ((Panner.process testTrig 2 ⟨1, 2⟩ 2 [1, 2] [0, 1] [7, 7, 7] [8, 8]).1 =
        (Panner.tickRun testTrig 2 ⟨1, 2⟩ (Panner.blockFrames 2 [1, 2] [0, 1])).1 ∧
     (Panner.process testTrig 2 ⟨1, 2⟩ 2 [1, 2] [0, 1] [7, 7, 7] [8, 8]).2.1.take 2 =
        (Panner.tickRun testTrig 2 ⟨1, 2⟩
          (Panner.blockFrames 2 [1, 2] [0, 1])).2.map Prod.fst ∧
     (Panner.process testTrig 2 ⟨1, 2⟩ 2 [1, 2] [0, 1] [7, 7, 7] [8, 8]).2.2.take 2 =
        (Panner.tickRun testTrig 2 ⟨1, 2⟩
          (Panner.blockFrames 2 [1, 2] [0, 1])).2.map Prod.snd) :=
  ⟨by decide,
   panner_process_eq_tick testTrig 2 ⟨1, 2⟩ 2 [1, 2] [0, 1] [7, 7, 7] [8, 8]
     (fun a b => mul_comm a b) (by decide) (by decide) (by decide)⟩

end Fundsp

namespace Fundsp

theorem process_loop_congr {T : Type} [Max T] [Min T] [Neg T] [One T]
    [Add T] [Mul T] [Inhabited T] (ops : TrigOps T) (n : ℕ) (in1 in1x : List T) :
    ∀ (k : ℕ) (s : Panner T) (b0 b1 : List T),
      (∀ i, i < k → in1x.getD i default = in1.getD i default) →
      (List.range k).foldl (Panner.process_body ops n in1x) (s, b0, b1) =
        (List.range k).foldl (Panner.process_body ops n in1) (s, b0, b1) := by
  intro k
  induction k with
  | zero => intro s b0 b1 _; rfl
  | succ k ih =>
    intro s b0 b1 h
    rw [List.range_succ, List.foldl_append, List.foldl_append,
      ih s b0 b1 (fun i hi => h i (Nat.lt_succ_of_lt hi))]
    simp only [List.foldl_cons, List.foldl_nil, Panner.process_body]
    rw [h k (Nat.lt_succ_self k)]

/-- C10: frame conditions of `Panner::process` with output buffers at least as
long as the block: the output buffers keep their lengths, every output element
at an index at or beyond `size` keeps its previous value, and the result
depends only on the first `size` elements of each input channel (two input
blocks agreeing on indices `0..size` produce identical results). -/
theorem panner_process_frame {T : Type} [Max T] [Min T] [Neg T] [One T]
    [Add T] [Mul T] [Inhabited T] (ops : TrigOps T) (n : ℕ) (s : Panner T)
    (size : ℕ) (in0 in1 out0 out1 : List T) (hin : size ≤ in0.length)
    (hout0 : size ≤ out0.length) (hout1 : size ≤ out1.length) :
    ((Panner.process ops n s size in0 in1 out0 out1).2.1.length = out0.length ∧
     (Panner.process ops n s size in0 in1 out0 out1).2.2.length = out1.length) ∧
    (∀ j, size ≤ j →
      (Panner.process ops n s size in0 in1 out0 out1).2.1.getD j default =
          out0.getD j default ∧
      (Panner.process ops n s size in0 in1 out0 out1).2.2.getD j default =
          out1.getD j default) ∧
    (∀ in0x in1x : List T, in0x.take size = in0.take size →
      in1x.take size = in1.take size →
      Panner.process ops n s size in0x in1x out0 out1 =
        Panner.process ops n s size in0 in1 out0 out1) := by
  refine ⟨process_length ops n s size in0 in1 out0 out1 hin hout0 hout1, ?_, ?_⟩
  · intro j hj
    have h := process_getD ops n s size in0 in1 out0 out1 hin hout0 hout1 j
    rw [h.1, h.2, if_neg (by omega), if_neg (by omega)]
    exact ⟨rfl, rfl⟩
  · intro in0x in1x h0 h1
    show (List.range size).foldl (Panner.process_body ops n in1x)
        (s, in0x.take size ++ out0.drop size, in0x.take size ++ out1.drop size) = _
    rw [h0, process_loop_congr ops n in1 in1x size s _ _
      (fun i hi => getD_take_agree h1 hi default)]
    rfl

/-- Witness for C10 at a concrete panner and buffers over `ℤ`, with a second
input block that differs from the first only beyond the processed prefix. -/
theorem panner_process_frame_witness :
    ((Panner.process testTrig 2 ⟨1, 2⟩ 1 [3, 4] [5, 6] [7, 8] [9, 10]).2.1.length =
        ([7, 8] : List ℤ).length ∧
     (Panner.process testTrig 2 ⟨1, 2⟩ 1 [3, 4] [5, 6] [7, 8] [9, 10]).2.2.length =
        ([9, 10] : List ℤ).length) ∧
    ((Panner.process testTrig 2 ⟨1, 2⟩ 1 [3, 4] [5, 6] [7, 8] [9, 10]).2.1.getD 1 default =
        ([7, 8] : List ℤ).getD 1 default ∧
     (Panner.process testTrig 2 ⟨1, 2⟩ 1 [3, 4] [5, 6] [7, 8] [9, 10]).2.2.getD 1 default =
        ([9, 10] : List ℤ).getD 1 default) ∧
    Panner.process testTrig 2 ⟨1, 2⟩ 1 [3, 11] [5, 12] [7, 8] [9, 10] =
      Panner.process testTrig 2 ⟨1, 2⟩ 1 [3, 4] [5, 6] [7, 8] [9, 10] := by
  have h := panner_process_frame testTrig 2 ⟨1, 2⟩ 1 [3, 4] [5, 6] [7, 8] [9, 10]
    (by decide) (by decide) (by decide)
  exact ⟨h.1, h.2.1 1 (by decide), h.2.2 [3, 11] [5, 12] (by decide) (by decide)⟩

end Fundsp

namespace Fundsp

/-- C6: for a `Panner` with 2 inputs, every `tick` call first recomputes both
stored weights from the current control sample `input[1]` — clamped to
`[-1, 1]` inside `pan_weights` — and only then returns
`(left_weight * input[0], right_weight * input[0])`; and in `process` the
weights are likewise re-derived from `input[1][i]` before scaling at every
index `i` of the block. -/
theorem panner_tick_recomputes {T : Type} [Max T] [Min T] [Neg T] [One T]
    [Add T] [Mul T] [Inhabited T] (ops : TrigOps T) :
    (∀ (s : Panner T) (input : List T),
      Panner.tick ops 2 s input =
        ({ left_weight := ops.cos ((clamp11 (input.getD 1 default) + 1) * ops.quarter_pi),
           right_weight := ops.sin ((clamp11 (input.getD 1 default) + 1) * ops.quarter_pi) },
         ops.cos ((clamp11 (input.getD 1 default) + 1) * ops.quarter_pi) * input.getD 0 default,
         ops.sin ((clamp11 (input.getD 1 default) + 1) * ops.quarter_pi) * input.getD 0 default)) ∧
    (∀ (s : Panner T) (size : ℕ) (in0 in1 out0 out1 : List T) (j : ℕ),
      size ≤ in0.length → size ≤ out0.length → size ≤ out1.length → j < size →
      (Panner.process ops 2 s size in0 in1 out0 out1).2.1.getD j default =
          in0.getD j default *
            ops.cos ((clamp11 (in1.getD j default) + 1) * ops.quarter_pi) ∧
      (Panner.process ops 2 s size in0 in1 out0 out1).2.2.getD j default =
          in0.getD j default *
            ops.sin ((clamp11 (in1.getD j default) + 1) * ops.quarter_pi)) := by
  constructor
  · intro s input
    simp [Panner.tick, Panner.set_pan, pan_weights]
  · intro s size in0 in1 out0 out1 j hin hout0 hout1 hj
    have h := process_getD ops 2 s size in0 in1 out0 out1 hin hout0 hout1 j
    have hstate : Panner.stateAt ops 2 s in1 (j + 1) =
        { left_weight := ops.cos ((clamp11 (in1.getD j default) + 1) * ops.quarter_pi),
          right_weight := ops.sin ((clamp11 (in1.getD j default) + 1) * ops.quarter_pi) } := by
      simp [Panner.stateAt, Panner.set_pan, pan_weights]
    rw [h.1, h.2, if_pos hj, if_pos hj, hstate]
    exact ⟨rfl, rfl⟩

/-- Witness for C6 at a concrete panner, frame and block over `ℤ`. -/
theorem panner_tick_recomputes_witness :
    (Panner.tick testTrig 2 (⟨3, 4⟩ : Panner ℤ) [2, 5] =
      ({ left_weight :=
           testTrig.cos ((clamp11 (([2, 5] : List ℤ).getD 1 default) + 1) * testTrig.quarter_pi),
         right_weight :=
           testTrig.sin ((clamp11 (([2, 5] : List ℤ).getD 1 default) + 1) * testTrig.quarter_pi) },
       testTrig.cos ((clamp11 (([2, 5] : List ℤ).getD 1 default) + 1) * testTrig.quarter_pi) *
         ([2, 5] : List ℤ).getD 0 default,
       testTrig.sin ((clamp11 (([2, 5] : List ℤ).getD 1 default) + 1) * testTrig.quarter_pi) *
         ([2, 5] : List ℤ).getD 0 default)) ∧
    ((Panner.process testTrig 2 (⟨3, 4⟩ : Panner ℤ) 1 [2] [5] [7] [9]).2.1.getD 0 default =
        ([2] : List ℤ).getD 0 default *
          testTrig.cos ((clamp11 (([5] : List ℤ).getD 0 default) + 1) * testTrig.quarter_pi) ∧
     (Panner.process testTrig 2 (⟨3, 4⟩ : Panner ℤ) 1 [2] [5] [7] [9]).2.2.getD 0 default =
        ([2] : List ℤ).getD 0 default *
          testTrig.sin ((clamp11 (([5] : List ℤ).getD 0 default) + 1) * testTrig.quarter_pi)) :=
  ⟨(panner_tick_recomputes testTrig).1 ⟨3, 4⟩ [2, 5],
   (panner_tick_recomputes testTrig).2 ⟨3, 4⟩ 1 [2] [5] [7] [9] 0
     (by decide) (by decide) (by decide) (by decide)⟩

end Fundsp

namespace Fundsp

theorem dot_foldl {T : Type} [CommSemiring T] :
    ∀ (l : List (T × T)) (a : T),
      l.foldl (fun value xy => value + xy.1 * xy.2) a =
        a + (l.map fun xy => xy.1 * xy.2).sum := by
  intro l
  induction l with
  | nil => intro a; simp
  | cons x xs ih => intro a; simp [ih, add_assoc]

theorem zip_sum_dot {T : Type} [CommSemiring T] :
    ∀ (m : ℕ) (x row : List T), x.length = m → row.length = m →
      ((x.zip row).map fun xy => xy.1 * xy.2).sum =
        ∑ j ∈ Finset.range m, row.getD j 0 * x.getD j 0 := by
  intro m
  induction m with
  | zero =>
    intro x row hx hrow
    rw [List.length_eq_zero] at hx hrow
    subst hx; subst hrow
    simp
  | succ m ih =>
    intro x row hx hrow
    cases x with
    | nil => simp at hx
    | cons a xs =>
      cases row with
      | nil => simp at hrow
      | cons b rs =>
        simp only [List.zip_cons_cons, List.map_cons, List.sum_cons]
        rw [ih xs rs (by simpa using hx) (by simpa using hrow)]
        rw [Finset.sum_range_succ' (fun j => (b :: rs).getD j 0 * (a :: xs).getD j 0) m]
        simp only [List.getD_cons_succ, List.getD_cons_zero]
        ring

/-- C7: for every `Mixer` with an `N×M` coefficient matrix and every input
frame `x` of length `M` (each matrix row having length `M`), `tick(x)` returns
the frame whose `i`-th element is the dot product of `x` with matrix row `i`,
that is the sum over `j` of `matrix[i][j] * x[j]`. -/
theorem mixer_tick_dot {T : Type} [CommSemiring T] (m : ℕ)
    (matrix : List (List T)) (input : List T) (hin : input.length = m)
    (hrows : ∀ row ∈ matrix, row.length = m) :
    Mixer.tick matrix input =
      matrix.map fun row => ∑ j ∈ Finset.range m, row.getD j 0 * input.getD j 0 := by
  unfold Mixer.tick
  apply List.map_congr_left
  intro row hrow
  rw [dot_foldl, zip_sum_dot m input row hin (hrows row hrow), zero_add]

/-- Witness for C7 at a concrete `2×2` mixer over `ℤ`. -/
theorem mixer_tick_dot_witness :
    ([5, 6] : List ℤ).length = 2 ∧
    Mixer.tick ([[1, 2], [3, 4]] : List (List ℤ)) [5, 6] =
      ([[1, 2], [3, 4]] : List (List ℤ)).map fun row =>
        ∑ j ∈ Finset.range 2, row.getD j 0 * ([5, 6] : List ℤ).getD j 0 :=
  ⟨by decide,
   mixer_tick_dot 2 [[1, 2], [3, 4]] [5, 6] (by decide) (by decide)⟩

theorem dot_add {T : Type} [CommSemiring T] :
    ∀ (x y row : List T), x.length = y.length →
      (((List.zipWith (fun a b => a + b) x y).zip row).map fun xy => xy.1 * xy.2).sum =
        ((x.zip row).map fun xy => xy.1 * xy.2).sum +
          ((y.zip row).map fun xy => xy.1 * xy.2).sum := by
  intro x
  induction x with
  | nil =>
    intro y row h
    have hy : y = [] := List.length_eq_zero.mp h.symm
    subst hy
    simp
  | cons a xs ih =>
    intro y row h
    cases y with
    | nil => simp at h
    | cons b ys =>
      cases row with
      | nil => simp
      | cons r rs =>
        simp only [List.zipWith_cons_cons, List.zip_cons_cons, List.map_cons,
          List.sum_cons]
        rw [ih ys rs (by simpa using h)]
        ring

/-- C8: for every `Mixer` and all input frames `x` and `y` of matching length,
`tick(x) + tick(y)` equals `tick(x + y)` element-wise (ticking the mixing
matrix is linear in the input frame; frame addition is `zipWith (+)`). -/
theorem mixer_tick_linear {T : Type} [CommSemiring T] (matrix : List (List T))
    (x y : List T) (hlen : x.length = y.length) :
    List.zipWith (fun a b => a + b) (Mixer.tick matrix x) (Mixer.tick matrix y) =
      Mixer.tick matrix (List.zipWith (fun a b => a + b) x y) := by
  unfold Mixer.tick
  rw [List.zipWith_map, List.zipWith_same]
  apply List.map_congr_left
  intro row _
  rw [dot_foldl, dot_foldl, dot_foldl, dot_add x y row hlen]
  simp [add_assoc]

/-- Witness for C8 at a concrete mixer and frames over `ℤ`. -/
theorem mixer_tick_linear_witness :
    ([1, 2] : List ℤ).length = ([3, 4] : List ℤ).length ∧
    List.zipWith (fun a b => a + b)
        (Mixer.tick ([[1, 2], [5, 7]] : List (List ℤ)) [1, 2])
        (Mixer.tick ([[1, 2], [5, 7]] : List (List ℤ)) [3, 4]) =
      Mixer.tick ([[1, 2], [5, 7]] : List (List ℤ))
        (List.zipWith (fun a b => a + b) [1, 2] [3, 4]) :=
  ⟨by decide, mixer_tick_linear [[1, 2], [5, 7]] [1, 2] [3, 4] (by decide)⟩

end Fundsp

namespace Fundsp

theorem route_foldl (M : ℕ) (g : ℕ → ℂ) (c : ℕ → ℝ) :
    ∀ (k s : ℕ) (a : ℂ), s + k ≤ M →
      (List.range' s k).foldl
        (fun acc j => acc.combine_linear
          ((((List.range M).map fun j2 => Signal.response (g j2)).getD j
              Signal.unknown).scale
            (((List.range M).map fun j2 => c j2).getD j 0))
          fun x y => x + y)
        (Signal.response a) =
      Signal.response (a + ∑ j ∈ Finset.range k, g (s + j) * ((c (s + j) : ℝ) : ℂ)) := by
  intro k
  induction k with
  | zero => intro s a _; simp
  | succ k ih =>
    intro s a hs
    rw [List.range'_succ, List.foldl_cons]
    rw [getD_map_range, getD_map_range, if_pos (by omega), if_pos (by omega)]
    show (List.range' (s + 1) k).foldl _
        ((Signal.response a).combine_linear
          ((Signal.response (g s)).scale (c s)) fun x y => x + y) = _
    have hstep : (Signal.response a).combine_linear
        ((Signal.response (g s)).scale (c s)) (fun x y => x + y) =
        Signal.response (a + g s * ((c s : ℝ) : ℂ)) := rfl
    rw [hstep, ih (s + 1) (a + g s * ((c s : ℝ) : ℂ)) (by omega)]
    congr 1
    rw [Finset.sum_range_succ' (fun j => g (s + j) * ((c (s + j) : ℝ) : ℂ)) k]
    have hsum : ∑ j ∈ Finset.range k, g (s + (j + 1)) * ((c (s + (j + 1)) : ℝ) : ℂ) =
        ∑ j ∈ Finset.range k, g (s + 1 + j) * ((c (s + 1 + j) : ℝ) : ℂ) :=
      Finset.sum_congr rfl fun j _ => by
        rw [show s + (j + 1) = s + 1 + j by omega]
    rw [hsum]
    simp only [Nat.add_zero]
    ring

/-- C4: for every `Mixer` with `M = mm + 1 ≥ 1` inputs and `nOut` outputs
whose input descriptors all carry a definite response, `route` returns for
each output channel `i` the combine-linear merge — complex addition of
responses — of the input descriptors `input[j]` scaled by the matrix
coefficient `matrix[i][j]` over `j = 0..M-1`: contributions from different
input channels are merged additively into `Σ_j input[j] · matrix[i][j]`
rather than overwriting one another. -/
theorem mixer_route_linear_combination (mm nOut : ℕ) (coef : ℕ → ℕ → ℝ)
    (g : ℕ → ℂ) :
    Mixer.route (mm + 1)
        ((List.range nOut).map fun i => (List.range (mm + 1)).map fun j => coef i j)
        ((List.range (mm + 1)).map fun j => Signal.response (g j)) =
      (List.range nOut).map fun i =>
        Signal.response (∑ j ∈ Finset.range (mm + 1), g j * ((coef i j : ℝ) : ℂ)) := by
  unfold Mixer.route
  rw [List.map_map]
  apply List.map_congr_left
  intro i _
  simp only [Function.comp_apply]
  rw [getD_map_range, getD_map_range, if_pos (by omega), if_pos (by omega)]
  have hstart : ((Signal.response (g 0)).scale (coef i 0)) =
      Signal.response (g 0 * ((coef i 0 : ℝ) : ℂ)) := rfl
  rw [hstart]
  have hmm : mm + 1 - 1 = mm := by omega
  rw [hmm, route_foldl (mm + 1) g (coef i) mm 1 (g 0 * ((coef i 0 : ℝ) : ℂ)) (by omega)]
  congr 1
  rw [Finset.sum_range_succ' (fun j => g j * ((coef i j : ℝ) : ℂ)) mm]
  have hsum : ∑ j ∈ Finset.range mm, g (j + 1) * ((coef i (j + 1) : ℝ) : ℂ) =
      ∑ j ∈ Finset.range mm, g (1 + j) * ((coef i (1 + j) : ℝ) : ℂ) :=
    Finset.sum_congr rfl fun j _ => by
      rw [show j + 1 = 1 + j by omega]
  rw [hsum]
  ring

end Fundsp
